import Mathlib

/-!
# Verification of the jellyfin-local show organizer

Shallow embedding of `organize_shows.py` and `organize_fringe.py`.

The scripts match TV-episode filenames against per-show regular
expressions and copy matching files into a `Show/Season SS/` layout.
The regular expressions used by the repository employ only these
constructs: literal characters, the classes `\s`, `\d` and `.`,
greedy `\s+`, bounded repetition `\d{2}`, lazy `.+?` and `.*?`, and
numbered capture groups.  The embedding below implements Python
`re.search` semantics (leftmost start position, backtracking with
declared greedy/lazy priority, optional `re.IGNORECASE`) for exactly
this fragment.  Character classes are modelled over their ASCII
portion, which covers every string the scripts handle.
-/

namespace Organize

/-! ## Character classes (ASCII fragment of Python `\s`, `\d`, `.`) -/

/-- ASCII portion of Python's `\s` class (also the characters removed by
`str.strip()`). -/
def isSpaceP (c : Char) : Bool :=
  c = ' ' || c = '\t' || c = '\n' || c = '\x0d' || c = '\x0b' || c = '\x0c'

/-- ASCII portion of Python's `\d` class. -/
def isDigitP (c : Char) : Bool :=
  '0' ≤ c && c ≤ '9'

/-- Python's `.` without `re.DOTALL`: any character except a newline. -/
def isDotP (c : Char) : Bool :=
  c ≠ '\n'

/-- ASCII lowercasing, as used by `re.IGNORECASE` folding and `str.lower()`
on the ASCII strings the scripts handle. -/
def lowerChar (c : Char) : Char :=
  if 'A' ≤ c ∧ c ≤ 'Z' then Char.ofNat (c.toNat + 32) else c

/-- Character comparison for a pattern literal `pc` against a subject
character `x`, folding case when `ci` (IGNORECASE) is set. -/
def charMatch (ci : Bool) (pc x : Char) : Bool :=
  if ci then lowerChar pc = lowerChar x else pc = x

/-! ## Regular-expression fragment -/

/-- One character-consuming regex atom of the fragment used by the repo. -/
inductive Atom where
  /-- a literal character -/
  | lit (c : Char)
  /-- a character class such as `\s` or `.` -/
  | cls (p : Char → Bool)
  /-- bounded repetition of a class, e.g. `\d{2}` -/
  | repn (p : Char → Bool) (n : Nat)
  /-- greedy `+` on a class, e.g. `\s+` -/
  | plusGreedy (p : Char → Bool)
  /-- lazy `+?` on a class, e.g. `.+?` -/
  | plusLazy (p : Char → Bool)
  /-- lazy `*?` on a class, e.g. `.*?` -/
  | starLazy (p : Char → Bool)

/-- A token of a pattern: a bare atom, or an atom wrapped in a numbered
capture group, e.g. `(\d{2})` as group 1. -/
inductive Tok where
  | atom (a : Atom)
  | grp (idx : Nat) (a : Atom)

/-- Captured groups of a match: group number paired with the captured
substring. -/
abbrev Caps := List (Nat × List Char)

/-- Length of the maximal prefix of `s` whose characters satisfy `p`. -/
def takeWhileLen (p : Char → Bool) (s : List Char) : Nat :=
  (s.takeWhile p).length

/-- All ways an atom can consume a prefix of `s`, as
`(consumed, remainder)` pairs, listed in Python backtracking priority
order (greedy: longest first; lazy: shortest first). -/
def atomOptions (ci : Bool) : Atom → List Char → List (List Char × List Char)
  | .lit _, [] => []
  | .lit c, x :: xs => if charMatch ci c x then [([x], xs)] else []
  | .cls _, [] => []
  | .cls p, x :: xs => if p x then [([x], xs)] else []
  | .repn p n, s => if n ≤ takeWhileLen p s then [(s.take n, s.drop n)] else []
  | .plusGreedy p, s =>
      ((List.range (takeWhileLen p s)).reverse).map
        (fun k => (s.take (k + 1), s.drop (k + 1)))
  | .plusLazy p, s =>
      (List.range (takeWhileLen p s)).map
        (fun k => (s.take (k + 1), s.drop (k + 1)))
  | .starLazy p, s =>
      (List.range (takeWhileLen p s + 1)).map
        (fun k => (s.take k, s.drop k))

/-- Options of a token: as the underlying atom, additionally recording
the captured substring when the token is a group. -/
def tokOptions (ci : Bool) : Tok → List Char → List (List Char × List Char × Caps)
  | .atom a, s => (atomOptions ci a s).map (fun tr => (tr.1, tr.2, []))
  | .grp i a, s => (atomOptions ci a s).map (fun tr => (tr.1, tr.2, [(i, tr.1)]))

/-- First `some` produced by `f` over a list, in order. -/
def firstSome (f : α → Option β) : List α → Option β
  | [] => none
  | x :: xs =>
    match f x with
    | some b => some b
    | none => firstSome f xs

/-- Backtracking matcher: match the token sequence `pat` against a prefix
of `s` (the rest of the subject is ignored, as in `re.search`),
accumulating captures.  Alternatives of each token are tried in priority
order, which is exactly Python's backtracking order for this fragment. -/
def matchSeq (ci : Bool) : List Tok → List Char → Caps → Option Caps
  | [], _, caps => some caps
  | t :: rest, s, caps =>
      firstSome (fun tr => matchSeq ci rest tr.2.1 (caps ++ tr.2.2)) (tokOptions ci t s)

/-- `re.search`: try each start position from the left; at the first
position where the pattern matches, return that match's captures. -/
def searchAux (ci : Bool) (pat : List Tok) : List Char → Option Caps
  | [] => matchSeq ci pat [] []
  | c :: cs =>
    match matchSeq ci pat (c :: cs) [] with
    | some caps => some caps
    | none => searchAux ci pat cs

/-- `re.search(pat, f, re.IGNORECASE if ci)` on a Lean string. -/
def searchStr (ci : Bool) (pat : List Tok) (f : String) : Option Caps :=
  searchAux ci pat f.data

/-- Group indices declared in a pattern, in order of appearance. -/
def groupIdxs : List Tok → List Nat
  | [] => []
  | .atom _ :: rest => groupIdxs rest
  | .grp i _ :: rest => i :: groupIdxs rest

/-- Number of capture groups a pattern defines (`len(match.groups())`). -/
def numGroups (pat : List Tok) : Nat :=
  (groupIdxs pat).length

/-- Look up the first recorded capture for group `i`
(`match.group(i)`; each group of the repo's patterns is recorded at
most once per match). -/
def findCap : Caps → Nat → Option (List Char)
  | [], _ => none
  | (j, v) :: rest, i => if j = i then some v else findCap rest i

/-! ## Python string helpers used by the scripts -/

/-- `str.strip()` on the character list of an ASCII string. -/
def pyStrip (l : List Char) : List Char :=
  ((l.dropWhile isSpaceP).reverse.dropWhile isSpaceP).reverse

/-- `str.lower()` on an ASCII string. -/
def pyLower (s : String) : String :=
  String.mk (s.data.map lowerChar)

/-- `str.endswith(suf)`. -/
def pyEndsWith (s suf : String) : Bool :=
  s.data.reverse.take suf.data.length = suf.data.reverse

/-- Index of the last `'.'` in a character list (`str.rfind('.')`),
`none` when absent. -/
def rfindDot : List Char → Option Nat
  | [] => none
  | c :: cs =>
    match rfindDot cs with
    | some i => some (i + 1)
    | none => if c = '.' then some 0 else none

/-- `pathlib.PurePath.suffix` of a file name: the final component from
the last dot on, empty unless the last dot is at position `0 < i < len - 1`. -/
def pySuffix (name : String) : String :=
  match rfindDot name.data with
  | none => ""
  | some i =>
      if 0 < i ∧ i + 1 < name.data.length then String.mk (name.data.drop i) else ""

/-- Python truthiness of an optional string (`if season:`): `None` and
the empty string are falsy. -/
def pyTruthy : Option String → Bool
  | none => false
  | some s => !s.data.isEmpty

/-! ## The repository's patterns and show registry -/

/-- Literal-character token run for a string of the pattern. -/
def litRun (s : String) : List Tok :=
  s.data.map (fun c => Tok.atom (Atom.lit c))

/-- Embedding of the shared pattern tail
`\s+S(\d{2})E(\d{2})\s+(.+?)\s+\(.*?\)` used by both registered shows'
regular expressions. -/
def epTail : List Tok :=
  [Tok.atom (Atom.plusGreedy isSpaceP),
   Tok.atom (Atom.lit 'S'),
   Tok.grp 1 (Atom.repn isDigitP 2),
   Tok.atom (Atom.lit 'E'),
   Tok.grp 2 (Atom.repn isDigitP 2),
   Tok.atom (Atom.plusGreedy isSpaceP),
   Tok.grp 3 (Atom.plusLazy isDotP),
   Tok.atom (Atom.plusGreedy isSpaceP),
   Tok.atom (Atom.lit '('),
   Tok.atom (Atom.starLazy isDotP),
   Tok.atom (Atom.lit ')')]

/-- `r'Fringe\s+S(\d{2})E(\d{2})\s+(.+?)\s+\(.*?\)'`
(the single pattern of the `fringe` profile in `organize_shows.py`). -/
def fringePattern : List Tok :=
  litRun "Fringe" ++ epTail

/-- `r'BSG\s+S(\d{2})E(\d{2})\s+(.+?)\s+\(.*?\)'`
(the single pattern of the `battlestar` profile in `organize_shows.py`). -/
def bsgPattern : List Tok :=
  litRun "BSG" ++ epTail

/-- A show configuration of `ShowOrganizer.SHOWS`. -/
structure ShowConfig where
  name : String
  patterns : List (List Tok)
  output_name : String

/-- The `fringe` entry of `ShowOrganizer.SHOWS`. -/
def fringeConfig : ShowConfig :=
  { name := "Fringe", patterns := [fringePattern], output_name := "Fringe" }

/-- The `battlestar` entry of `ShowOrganizer.SHOWS`. -/
def battlestarConfig : ShowConfig :=
  { name := "Battlestar Galactica", patterns := [bsgPattern],
    output_name := "Battlestar Galactica" }

/-- The static registry `ShowOrganizer.SHOWS`, key to configuration. -/
def SHOWS : List (String × ShowConfig) :=
  [("fringe", fringeConfig), ("battlestar", battlestarConfig)]

/-! ## `ShowOrganizer.parse_episode_info` -/

/-- The string of a captured group (`match.group(i)`). -/
def capStr (caps : Caps) (i : Nat) : Option String :=
  (findCap caps i).map String.mk

/-- The title computed from a match:
`match.group(3).strip() if len(match.groups()) >= 3 else None`. -/
def titleOf (pat : List Tok) (caps : Caps) : Option String :=
  if 3 ≤ numGroups pat then (findCap caps 3).map (fun l => String.mk (pyStrip l))
  else none

/-- `ShowOrganizer.parse_episode_info`: try each configured pattern with
`re.search(pattern, filename, re.IGNORECASE)`; on the first match return
`(group(1), group(2), title)`; after the loop return `(None, None, None)`. -/
def parseShows (pats : List (List Tok)) (filename : String) :
    Option String × Option String × Option String :=
  match pats with
  | [] => (none, none, none)
  | p :: rest =>
    match searchStr true p filename with
    | some caps => (capStr caps 1, capStr caps 2, titleOf p caps)
    | none => parseShows rest filename

/-! ## `ShowOrganizer.create_jellyfin_filename` -/

/-- `ShowOrganizer.create_jellyfin_filename`: `ShowName - SxxEyy - Title.ext`,
dropping the title segment when `title` is falsy. -/
def create_jellyfin_filename (showName season episode : String)
    (title : Option String) (extension : String) : String :=
  if pyTruthy title then
    showName ++ " - S" ++ season ++ "E" ++ episode ++ " - " ++ title.getD "" ++ extension
  else
    showName ++ " - S" ++ season ++ "E" ++ episode ++ extension

/-! ## Source-directory scan (`ShowOrganizer.organize`, file filter)

A directory entry is a name plus whether it is a regular file
(`Path.is_file()`).  Filesystem effects that can fail (`mkdir`,
`shutil.copy2`) are modelled by oracles mapping their argument to
whether the call raises. -/

/-- One entry of `source_dir.iterdir()`. -/
structure FileEntry where
  name : String
  isFile : Bool
deriving DecidableEq

/-- The video-file extension set of `organize_shows.py`. -/
def videoExtsShows : List String :=
  [".m4v", ".mp4", ".mkv", ".avi", ".ts"]

/-- The video-file extension set of `organize_fringe.py` (no `.ts`). -/
def videoExtsFringe : List String :=
  [".m4v", ".mp4", ".mkv", ".avi"]

/-- The per-entry filter of `ShowOrganizer.organize`: regular file, not a
`.part` download, suffix (lowercased) in the extension set. -/
def showsKeep (e : FileEntry) : Bool :=
  if e.isFile then
    if pyEndsWith e.name ".part" then false
    else videoExtsShows.contains (pyLower (pySuffix e.name))
  else false

/-- The per-entry filter of `organize_fringe.main`: regular file, not a
`.part` download, suffix (not lowercased) in the smaller extension set. -/
def fringeKeep (e : FileEntry) : Bool :=
  if e.isFile then
    if pyEndsWith e.name ".part" then false
    else videoExtsFringe.contains (pySuffix e.name)
  else false

/-- Lexicographic code-point `<` on character lists (the order Python
compares strings by). -/
def listLt : List Char → List Char → Bool
  | [], [] => false
  | [], _ :: _ => true
  | _ :: _, [] => false
  | a :: as, b :: bs =>
    if a.toNat < b.toNat then true
    else if b.toNat < a.toNat then false
    else listLt as bs

/-- Python string `≤` (as used by `sorted`), as a Bool for sorting. -/
def strLe (a b : String) : Bool :=
  !listLt b.data a.data

/-- Insert into a `≤`-sorted list of names. -/
def insertSorted (x : String) : List String → List String
  | [] => [x]
  | y :: ys => if strLe x y then x :: y :: ys else y :: insertSorted x ys

/-- `sorted(files)`: the eligible file names in ascending order. -/
def sortNames : List String → List String
  | [] => []
  | x :: xs => insertSorted x (sortNames xs)

/-! ## The per-file loop of `ShowOrganizer.organize` -/

/-- How one eligible file was handled.  `copied` covers both a real
successful copy and the dry-run would-copy path, which the script counts
in the same counter. -/
inductive Outcome where
  /-- skipped because season/episode could not be parsed -/
  | skippedParse
  /-- counted as copied; `dest` is the computed destination relative to
  the show's output directory -/
  | copied (dest : String)
  /-- `shutil.copy2` raised; skipped with the error message -/
  | copyFailed (dest : String)
deriving DecidableEq

/-- Observable state accumulated by the loop: the two counters, the
per-file outcomes in processing order, and the filesystem writes
performed (`mkdir` calls and copies). -/
structure LoopState where
  copied : Nat
  skipped : Nat
  outcomes : List (String × Outcome)
  dirsMade : List String
  copies : List (String × String)
deriving DecidableEq

/-- State before the loop (`copied_count = 0`, `skipped_count = 0`). -/
def initState : LoopState :=
  { copied := 0, skipped := 0, outcomes := [], dirsMade := [], copies := [] }

/-- One iteration of the `for file in sorted(files)` loop of
`ShowOrganizer.organize`.  `.error ()` is an exception propagating out of
the loop (only `season_dir.mkdir`, which sits outside the `try`, can
raise one; `shutil.copy2` raising is caught and counted as skipped). -/
def processFile (cfg : ShowConfig) (dryRun : Bool)
    (mkdirFails copyFails : String → Bool) (st : LoopState) (fname : String) :
    Except Unit LoopState :=
  let r := parseShows cfg.patterns fname
  if !pyTruthy r.1 || !pyTruthy r.2.1 then
    .ok { st with skipped := st.skipped + 1,
                  outcomes := st.outcomes ++ [(fname, .skippedParse)] }
  else
    let season := r.1.getD ""
    let extension := pySuffix fname
    let seasonDir := "Season " ++ season
    if !dryRun && mkdirFails seasonDir then
      .error ()
    else
      let st1 := if dryRun then st else { st with dirsMade := st.dirsMade ++ [seasonDir] }
      let newFilename :=
        create_jellyfin_filename cfg.name season (r.2.1.getD "") r.2.2 extension
      let dest := seasonDir ++ "/" ++ newFilename
      if dryRun then
        .ok { st1 with copied := st1.copied + 1,
                       outcomes := st1.outcomes ++ [(fname, .copied dest)] }
      else if copyFails fname then
        .ok { st1 with skipped := st1.skipped + 1,
                       outcomes := st1.outcomes ++ [(fname, .copyFailed dest)] }
      else
        .ok { st1 with copied := st1.copied + 1,
                       outcomes := st1.outcomes ++ [(fname, .copied dest)],
                       copies := st1.copies ++ [(fname, dest)] }

/-- The whole loop, file by file; an exception from one iteration
propagates (aborting the remaining files). -/
def processFiles (cfg : ShowConfig) (dryRun : Bool)
    (mkdirFails copyFails : String → Bool) :
    List String → LoopState → Except Unit LoopState
  | [], st => .ok st
  | f :: fs, st =>
    match processFile cfg dryRun mkdirFails copyFails st f with
    | .error e => .error e
    | .ok st' => processFiles cfg dryRun mkdirFails copyFails fs st'

/-- The destination path, relative to the show's output directory, that
the loop computes for a file whose name parsed. -/
def destFor (cfg : ShowConfig) (f : String) : String :=
  "Season " ++ (parseShows cfg.patterns f).1.getD "" ++ "/" ++
    create_jellyfin_filename cfg.name ((parseShows cfg.patterns f).1.getD "")
      ((parseShows cfg.patterns f).2.1.getD "") (parseShows cfg.patterns f).2.2
      (pySuffix f)

/-- `ShowOrganizer.organize`: returns `False` (with no file processed)
when the source directory does not exist or contains no eligible video
file; otherwise processes the sorted eligible files and returns `True`.
`.error ()` is an uncaught exception from the loop. -/
def organize (cfg : ShowConfig) (sourceExists : Bool) (entries : List FileEntry)
    (dryRun : Bool) (mkdirFails copyFails : String → Bool) :
    Except Unit (Bool × LoopState) :=
  if !sourceExists then .ok (false, initState)
  else
    let files := (entries.filter showsKeep).map FileEntry.name
    if files.isEmpty then .ok (false, initState)
    else
      (processFiles cfg dryRun mkdirFails copyFails (sortNames files) initState).map
        (fun st => (true, st))

/-- `main` of `organize_shows.py`: constructing `ShowOrganizer` with an
unknown (lowercased) show key raises `ValueError`, caught and turned into
exit code 1; otherwise `organize` runs, its boolean result is ignored,
and `main` returns 0.  An exception escaping `organize` is uncaught and
terminates the interpreter with a nonzero status. -/
def mainExit (showArg : String) (sourceExists : Bool) (entries : List FileEntry)
    (dryRun : Bool) (mkdirFails copyFails : String → Bool) : Nat :=
  match SHOWS.lookup (pyLower showArg) with
  | none => 1
  | some cfg =>
    match organize cfg sourceExists entries dryRun mkdirFails copyFails with
    | .error _ => 1
    | .ok _ => 0

/-! ## Specification predicates for the matcher -/

/-- What it means for an atom to have consumed the characters `tk`. -/
def AtomTakes (ci : Bool) : Atom → List Char → Prop
  | .lit c, tk => ∃ x, tk = [x] ∧ charMatch ci c x = true
  | .cls p, tk => ∃ x, tk = [x] ∧ p x = true
  | .repn p n, tk => tk.length = n ∧ tk.all p = true
  | .plusGreedy p, tk => tk ≠ [] ∧ tk.all p = true
  | .plusLazy p, tk => tk ≠ [] ∧ tk.all p = true
  | .starLazy p, tk => tk.all p = true

/-- The captures a successful match of a token sequence records: one
entry per `grp` token, in pattern order, each consuming characters
admitted by its atom. -/
def CapsMatch (ci : Bool) : List Tok → Caps → Prop
  | [], ext => ext = []
  | .atom _ :: rest, ext => CapsMatch ci rest ext
  | .grp i a :: rest, ext =>
      ∃ tk ext2, ext = (i, tk) :: ext2 ∧ AtomTakes ci a tk ∧ CapsMatch ci rest ext2

end Organize

namespace Organize

/-! ## Lemmas about the matcher -/

theorem firstSome_eq_some {α β : Type} {f : α → Option β} :
    ∀ {l : List α} {b : β}, firstSome f l = some b → ∃ a ∈ l, f a = some b := by
  intro l
  induction l with
  | nil => intro b h; simp [firstSome] at h
  | cons x xs ih =>
    intro b h
    cases hfx : f x with
    | some b' =>
      simp only [firstSome, hfx] at h
      exact ⟨x, List.mem_cons_self x xs, by rw [hfx, h]⟩
    | none =>
      simp only [firstSome, hfx] at h
      obtain ⟨a, ha, hfa⟩ := ih h
      exact ⟨a, List.mem_cons_of_mem x ha, hfa⟩

theorem takeWhileLen_le (p : Char → Bool) (s : List Char) :
    takeWhileLen p s ≤ s.length := by
  induction s with
  | nil => simp [takeWhileLen]
  | cons c cs ih =>
    by_cases hc : p c
    · simpa [takeWhileLen, List.takeWhile_cons, hc] using
        Nat.succ_le_succ (by simpa [takeWhileLen] using ih)
    · simp [takeWhileLen, List.takeWhile_cons, hc]

theorem take_all_of_le (p : Char → Bool) :
    ∀ (s : List Char) (j : Nat), j ≤ takeWhileLen p s → (s.take j).all p = true := by
  intro s
  induction s with
  | nil => intro j hj; simp [takeWhileLen] at hj; simp [hj]
  | cons c cs ih =>
    intro j hj
    cases j with
    | zero => simp
    | succ j' =>
      by_cases hc : p c
      · simp only [takeWhileLen, List.takeWhile_cons, hc, if_true, List.length_cons] at hj
        have := ih j' (Nat.le_of_succ_le_succ hj)
        simp [List.take, hc, this]
      · simp [takeWhileLen, List.takeWhile_cons, hc] at hj

theorem take_ne_nil_of_le {p : Char → Bool} {s : List Char} {j : Nat}
    (h1 : 1 ≤ j) (h2 : j ≤ takeWhileLen p s) : s.take j ≠ [] := by
  have hlen : j ≤ s.length := le_trans h2 (takeWhileLen_le p s)
  have : (s.take j).length = j := by
    rw [List.length_take]; omega
  intro hnil
  rw [hnil] at this
  simp at this
  omega

theorem atomOptions_mem {ci : Bool} {a : Atom} {s tk r : List Char}
    (h : (tk, r) ∈ atomOptions ci a s) : s = tk ++ r ∧ AtomTakes ci a tk := by
  cases a with
  | lit c =>
    cases s with
    | nil => simp [atomOptions] at h
    | cons x xs =>
      by_cases hc : charMatch ci c x
      · simp [atomOptions, hc] at h
        obtain ⟨rfl, rfl⟩ := h
        exact ⟨rfl, ⟨x, rfl, hc⟩⟩
      · simp [atomOptions, hc] at h
  | cls p =>
    cases s with
    | nil => simp [atomOptions] at h
    | cons x xs =>
      by_cases hc : p x
      · simp [atomOptions, hc] at h
        obtain ⟨rfl, rfl⟩ := h
        exact ⟨rfl, ⟨x, rfl, hc⟩⟩
      · simp [atomOptions, hc] at h
  | repn p n =>
    by_cases hn : n ≤ takeWhileLen p s
    · simp [atomOptions, hn] at h
      obtain ⟨rfl, rfl⟩ := h
      refine ⟨(List.take_append_drop n s).symm, ?_, take_all_of_le p s n hn⟩
      rw [List.length_take]
      have := le_trans hn (takeWhileLen_le p s)
      omega
    · simp [atomOptions, hn] at h
  | plusGreedy p =>
    simp only [atomOptions, List.mem_map, List.mem_reverse, List.mem_range] at h
    obtain ⟨k, hk, heq⟩ := h
    obtain ⟨rfl, rfl⟩ := Prod.mk.injEq .. ▸ heq
    have hk1 : k + 1 ≤ takeWhileLen p s := hk
    exact ⟨(List.take_append_drop (k + 1) s).symm,
      take_ne_nil_of_le (Nat.le_add_left 1 k) hk1, take_all_of_le p s (k + 1) hk1⟩
  | plusLazy p =>
    simp only [atomOptions, List.mem_map, List.mem_range] at h
    obtain ⟨k, hk, heq⟩ := h
    obtain ⟨rfl, rfl⟩ := Prod.mk.injEq .. ▸ heq
    have hk1 : k + 1 ≤ takeWhileLen p s := hk
    exact ⟨(List.take_append_drop (k + 1) s).symm,
      take_ne_nil_of_le (Nat.le_add_left 1 k) hk1, take_all_of_le p s (k + 1) hk1⟩
  | starLazy p =>
    simp only [atomOptions, List.mem_map, List.mem_range] at h
    obtain ⟨k, hk, heq⟩ := h
    obtain ⟨rfl, rfl⟩ := Prod.mk.injEq .. ▸ heq
    exact ⟨(List.take_append_drop k s).symm,
      take_all_of_le p s k (Nat.lt_succ_iff.mp hk)⟩

theorem matchSeq_sound {ci : Bool} :
    ∀ {pat : List Tok} {s : List Char} {caps0 caps : Caps},
      matchSeq ci pat s caps0 = some caps →
      ∃ ext, caps = caps0 ++ ext ∧ CapsMatch ci pat ext := by
  intro pat
  induction pat with
  | nil =>
    intro s caps0 caps h
    simp [matchSeq] at h
    exact ⟨[], by simp [h], rfl⟩
  | cons t rest ih =>
    intro s caps0 caps h
    simp only [matchSeq] at h
    obtain ⟨tr, htr, hm⟩ := firstSome_eq_some h
    cases t with
    | atom a =>
      simp only [tokOptions, List.mem_map] at htr
      obtain ⟨⟨tk, r⟩, hmem, rfl⟩ := htr
      obtain ⟨ext, rfl, hcm⟩ := ih hm
      exact ⟨ext, by simp, hcm⟩
    | grp i a =>
      simp only [tokOptions, List.mem_map] at htr
      obtain ⟨⟨tk, r⟩, hmem, rfl⟩ := htr
      obtain ⟨-, hat⟩ := atomOptions_mem hmem
      obtain ⟨ext, rfl, hcm⟩ := ih hm
      exact ⟨(i, tk) :: ext, by simp, tk, ext, rfl, hat, hcm⟩

theorem searchAux_sound {ci : Bool} {pat : List Tok} :
    ∀ {s : List Char} {caps : Caps},
      searchAux ci pat s = some caps → CapsMatch ci pat caps := by
  intro s
  induction s with
  | nil =>
    intro caps h
    simp only [searchAux] at h
    obtain ⟨ext, hext, hcm⟩ := matchSeq_sound h
    simpa [hext] using hcm
  | cons c cs ih =>
    intro caps h
    simp only [searchAux] at h
    cases hm : matchSeq ci pat (c :: cs) [] with
    | some caps' =>
      rw [hm] at h
      obtain ⟨ext, hext, hcm⟩ := matchSeq_sound hm
      cases h
      simpa [hext] using hcm
    | none =>
      rw [hm] at h
      exact ih h

theorem searchStr_sound {ci : Bool} {pat : List Tok} {f : String} {caps : Caps}
    (h : searchStr ci pat f = some caps) : CapsMatch ci pat caps :=
  searchAux_sound h

/-! ## Shape of the captures of the repository's patterns -/

theorem capsMatch_of_litRun_append {ci : Bool} :
    ∀ (cs : List Char) {rest : List Tok} {ext : Caps},
      CapsMatch ci (cs.map (fun c => Tok.atom (Atom.lit c)) ++ rest) ext →
      CapsMatch ci rest ext := by
  intro cs
  induction cs with
  | nil => intro rest ext h; simpa using h
  | cons c cs ih => intro rest ext h; exact ih h

theorem capsShape_epTail {ci : Bool} {ext : Caps} (h : CapsMatch ci epTail ext) :
    ∃ d1 d2 t, ext = [(1, d1), (2, d2), (3, t)] ∧
      d1.length = 2 ∧ d1.all isDigitP = true ∧
      d2.length = 2 ∧ d2.all isDigitP = true ∧
      t ≠ [] ∧ t.all isDotP = true := by
  simp only [epTail, CapsMatch, AtomTakes] at h
  obtain ⟨d1, ext1, rfl, ⟨hd1len, hd1all⟩, h⟩ := h
  obtain ⟨d2, ext2, rfl, ⟨hd2len, hd2all⟩, h⟩ := h
  obtain ⟨t, ext3, rfl, ⟨htne, htall⟩, h⟩ := h
  subst h
  exact ⟨d1, d2, t, rfl, hd1len, hd1all, hd2len, hd2all, htne, htall⟩

theorem capsShape_profile {ci : Bool} {s0 f : String} {caps : Caps}
    (h : searchStr ci (litRun s0 ++ epTail) f = some caps) :
    ∃ d1 d2 t, caps = [(1, d1), (2, d2), (3, t)] ∧
      d1.length = 2 ∧ d1.all isDigitP = true ∧
      d2.length = 2 ∧ d2.all isDigitP = true ∧
      t ≠ [] ∧ t.all isDotP = true :=
  capsShape_epTail (capsMatch_of_litRun_append s0.data (searchStr_sound h))

theorem capsMatch_fst_map {ci : Bool} :
    ∀ {pat : List Tok} {ext : Caps}, CapsMatch ci pat ext →
      ext.map Prod.fst = groupIdxs pat ∧
      ∀ pr ∈ ext, ∃ a, Tok.grp pr.1 a ∈ pat ∧ AtomTakes ci a pr.2 := by
  intro pat
  induction pat with
  | nil =>
    intro ext h
    simp only [CapsMatch] at h
    subst h
    simp [groupIdxs]
  | cons tk rest ih =>
    intro ext h
    cases tk with
    | atom a =>
      obtain ⟨hmap, hmem⟩ := ih h
      refine ⟨by simpa [groupIdxs] using hmap, fun pr hpr => ?_⟩
      obtain ⟨a', ha', hat⟩ := hmem pr hpr
      exact ⟨a', List.mem_cons_of_mem _ ha', hat⟩
    | grp i a =>
      simp only [CapsMatch] at h
      obtain ⟨tk0, ext2, rfl, hat, hcm⟩ := h
      obtain ⟨hmap, hmem⟩ := ih hcm
      refine ⟨by simpa [groupIdxs] using hmap, fun pr hpr => ?_⟩
      rcases List.mem_cons.mp hpr with rfl | hpr'
      · exact ⟨a, List.mem_cons_self _ _, hat⟩
      · obtain ⟨a', ha', hat'⟩ := hmem pr hpr'
        exact ⟨a', List.mem_cons_of_mem _ ha', hat'⟩

theorem findCap_of_range :
    ∀ (l : Caps) (m i : Nat), l.map Prod.fst = List.range' m l.length →
      m ≤ i → i < m + l.length →
      ∃ tk, findCap l i = some tk ∧ (i, tk) ∈ l := by
  intro l
  induction l with
  | nil => intro m i _ h1 h2; simp only [List.length_nil] at h2; omega
  | cons pr rest ih =>
    intro m i hmap h1 h2
    obtain ⟨j, v⟩ := pr
    simp only [List.map_cons, List.length_cons, List.range'_succ] at hmap
    have hj : j = m := (List.cons.injEq .. ▸ hmap).1
    have hrest : rest.map Prod.fst = List.range' (m + 1) rest.length :=
      (List.cons.injEq .. ▸ hmap).2
    subst hj
    by_cases hij : i = j
    · subst hij
      exact ⟨v, by simp [findCap], List.mem_cons_self _ _⟩
    · have hlt : j < i := by omega
      have hne : ¬ (j = i) := by omega
      obtain ⟨tk, hfind, hmem⟩ := ih (j + 1) i hrest (by omega)
        (by simp only [List.length_cons] at h2; omega)
      exact ⟨tk, by simp [findCap, hne, hfind], List.mem_cons_of_mem _ hmem⟩

/-! ## Lemmas about `parse_episode_info` -/

/-- The first matching pattern determines the parse result. -/
theorem parseShows_first_match :
    ∀ (pats : List (List Tok)) (f : String) (i : Nat) (hi : i < pats.length)
      (caps : Caps),
      (∀ (j : Nat) (hj : j < pats.length), j < i →
        searchStr true (pats.get ⟨j, hj⟩) f = none) →
      searchStr true (pats.get ⟨i, hi⟩) f = some caps →
      parseShows pats f =
        (capStr caps 1, capStr caps 2, titleOf (pats.get ⟨i, hi⟩) caps) := by
  intro pats
  induction pats with
  | nil => intro f i hi; simp at hi
  | cons p rest ih =>
    intro f i hi caps hfirst hmatch
    cases i with
    | zero =>
      simp only [List.get] at hmatch
      simp [parseShows, hmatch]
    | succ i' =>
      have h0 : searchStr true p f = none :=
        hfirst 0 (by simp) (Nat.succ_pos i')
      have hi' : i' < rest.length := Nat.lt_of_succ_lt_succ hi
      have hfirst' : ∀ (j : Nat) (hj : j < rest.length), j < i' →
          searchStr true (rest.get ⟨j, hj⟩) f = none := by
        intro j hj hji
        exact hfirst (j + 1) (Nat.succ_lt_succ hj) (Nat.succ_lt_succ hji)
      have := ih f i' hi' caps hfirst' hmatch
      simpa [parseShows, h0] using this

/-- When no pattern matches, the parse result is all-`none`. -/
theorem parseShows_no_match :
    ∀ (pats : List (List Tok)) (f : String),
      (∀ p ∈ pats, searchStr true p f = none) →
      parseShows pats f = (none, none, none) := by
  intro pats
  induction pats with
  | nil => intro f _; rfl
  | cons p rest ih =>
    intro f h
    have h0 : searchStr true p f = none := h p (List.mem_cons_self p rest)
    simp only [parseShows, h0]
    exact ih f (fun q hq => h q (List.mem_cons_of_mem p hq))

/-! ## Lemmas about the driver loop -/

theorem processFile_count {cfg : ShowConfig} {dr : Bool} {mkF cpF : String → Bool}
    {st : LoopState} {f : String} {st' : LoopState}
    (h : processFile cfg dr mkF cpF st f = .ok st') :
    st'.copied + st'.skipped = st.copied + st.skipped + 1 := by
  simp only [processFile] at h
  split at h
  · injection h with h; subst h; simp; omega
  · split at h
    · exact absurd h (by simp)
    · split at h
      · injection h with h; subst h; simp [*]; omega
      · split at h
        · injection h with h; subst h; simp; omega
        · injection h with h; subst h; simp; omega

theorem processFiles_count {cfg : ShowConfig} {dr : Bool} {mkF cpF : String → Bool} :
    ∀ (fs : List String) (st st' : LoopState),
      processFiles cfg dr mkF cpF fs st = .ok st' →
      st'.copied + st'.skipped = st.copied + st.skipped + fs.length := by
  intro fs
  induction fs with
  | nil =>
    intro st st' h
    simp only [processFiles] at h
    injection h with h
    subst h
    simp
  | cons f fs ih =>
    intro st st' h
    simp only [processFiles] at h
    cases hpf : processFile cfg dr mkF cpF st f with
    | error e => rw [hpf] at h; exact absurd h (by simp)
    | ok st1 =>
      rw [hpf] at h
      have h1 := processFile_count hpf
      have h2 := ih st1 st' h
      simp only [List.length_cons]
      omega

/-- The skip branch of the loop body: unparseable file. -/
theorem processFile_skip (cfg : ShowConfig) (dr : Bool) (mkF cpF : String → Bool)
    (st : LoopState) (f : String)
    (h : (!pyTruthy (parseShows cfg.patterns f).1 ||
      !pyTruthy (parseShows cfg.patterns f).2.1) = true) :
    processFile cfg dr mkF cpF st f = .ok { st with
      skipped := st.skipped + 1
      outcomes := st.outcomes ++ [(f, Outcome.skippedParse)] } := by
  simp [processFile, h]

/-- The dry-run success branch of the loop body. -/
theorem processFile_dry (cfg : ShowConfig) (mkF cpF : String → Bool)
    (st : LoopState) (f : String)
    (h : (!pyTruthy (parseShows cfg.patterns f).1 ||
      !pyTruthy (parseShows cfg.patterns f).2.1) = false) :
    processFile cfg true mkF cpF st f = .ok { st with
      copied := st.copied + 1
      outcomes := st.outcomes ++ [(f, Outcome.copied (destFor cfg f))] } := by
  simp [processFile, destFor, h]

/-- The real-run success branch of the loop body. -/
theorem processFile_real_ok (cfg : ShowConfig) (mkF cpF : String → Bool)
    (st : LoopState) (f : String)
    (h : (!pyTruthy (parseShows cfg.patterns f).1 ||
      !pyTruthy (parseShows cfg.patterns f).2.1) = false)
    (hmk : mkF ("Season " ++ (parseShows cfg.patterns f).1.getD "") = false)
    (hcp : cpF f = false) :
    processFile cfg false mkF cpF st f = .ok { st with
      copied := st.copied + 1
      outcomes := st.outcomes ++ [(f, Outcome.copied (destFor cfg f))]
      dirsMade := st.dirsMade ++ ["Season " ++ (parseShows cfg.patterns f).1.getD ""]
      copies := st.copies ++ [(f, destFor cfg f)] } := by
  simp [processFile, destFor, h, hmk, hcp]

theorem processFile_parity (cfg : ShowConfig) (mkF cpF mkF2 cpF2 : String → Bool)
    (hm : ∀ d, mkF d = false) (hc : ∀ g, cpF g = false)
    {stD stR : LoopState} (h1 : stD.copied = stR.copied) (h2 : stD.skipped = stR.skipped)
    (h3 : stD.outcomes = stR.outcomes) (f : String) :
    ∃ stD' stR', processFile cfg true mkF2 cpF2 stD f = .ok stD' ∧
      processFile cfg false mkF cpF stR f = .ok stR' ∧
      stD'.copied = stR'.copied ∧ stD'.skipped = stR'.skipped ∧
      stD'.outcomes = stR'.outcomes ∧
      stD'.dirsMade = stD.dirsMade ∧ stD'.copies = stD.copies := by
  by_cases hskip :
      (!pyTruthy (parseShows cfg.patterns f).1 ||
        !pyTruthy (parseShows cfg.patterns f).2.1) = true
  · exact ⟨_, _, processFile_skip cfg true mkF2 cpF2 stD f hskip,
      processFile_skip cfg false mkF cpF stR f hskip,
      by simp [h1], by simp [h2], by simp [h3], rfl, rfl⟩
  · have hskip' := Bool.of_not_eq_true hskip
    exact ⟨_, _, processFile_dry cfg mkF2 cpF2 stD f hskip',
      processFile_real_ok cfg mkF cpF stR f hskip' (hm _) (hc f),
      by simp [h1], by simp [h2], by simp [h3], rfl, rfl⟩

theorem processFiles_parity (cfg : ShowConfig) (mkF cpF mkF2 cpF2 : String → Bool)
    (hm : ∀ d, mkF d = false) (hc : ∀ g, cpF g = false) :
    ∀ (fs : List String) (stD stR : LoopState),
      stD.copied = stR.copied → stD.skipped = stR.skipped →
      stD.outcomes = stR.outcomes →
      ∃ stD' stR',
        processFiles cfg true mkF2 cpF2 fs stD = .ok stD' ∧
        processFiles cfg false mkF cpF fs stR = .ok stR' ∧
        stD'.copied = stR'.copied ∧ stD'.skipped = stR'.skipped ∧
        stD'.outcomes = stR'.outcomes ∧
        stD'.dirsMade = stD.dirsMade ∧ stD'.copies = stD.copies := by
  intro fs
  induction fs with
  | nil =>
    intro stD stR h1 h2 h3
    exact ⟨stD, stR, rfl, rfl, h1, h2, h3, rfl, rfl⟩
  | cons f fs ih =>
    intro stD stR h1 h2 h3
    obtain ⟨stD1, stR1, hD1, hR1, g1, g2, g3, g4, g5⟩ :=
      processFile_parity cfg mkF cpF mkF2 cpF2 hm hc h1 h2 h3 f
    obtain ⟨stD', stR', hD, hR, k1, k2, k3, k4, k5⟩ := ih stD1 stR1 g1 g2 g3
    refine ⟨stD', stR', ?_, ?_, k1, k2, k3, by rw [k4, g4], by rw [k5, g5]⟩
    · simp only [processFiles, hD1]; exact hD
    · simp only [processFiles, hR1]; exact hR

theorem insertSorted_length (x : String) :
    ∀ (l : List String), (insertSorted x l).length = l.length + 1 := by
  intro l
  induction l with
  | nil => rfl
  | cons y ys ih =>
    by_cases hle : strLe x y
    · simp [insertSorted, hle]
    · simp [insertSorted, hle, ih]

theorem sortNames_length : ∀ (l : List String), (sortNames l).length = l.length := by
  intro l
  induction l with
  | nil => rfl
  | cons x xs ih => simp [sortNames, insertSorted_length, ih]

theorem groupIdxs_litRun_append :
    ∀ (cs : List Char) (rest : List Tok),
      groupIdxs (cs.map (fun c => Tok.atom (Atom.lit c)) ++ rest) = groupIdxs rest := by
  intro cs rest
  induction cs with
  | nil => rfl
  | cons c cs ih => simpa [groupIdxs] using ih

theorem numGroups_profile (s0 : String) :
    numGroups (litRun s0 ++ epTail) = 3 := by
  simp [numGroups, litRun, groupIdxs_litRun_append, epTail, groupIdxs]

/-- Dichotomy of `parse_episode_info` under a profile pattern of the
registry's shape: either no match at all, or a full
`(season, episode, title)` with two-digit season and episode. -/
theorem parse_profile_dichotomy (s0 : String) (f : String) :
    parseShows [litRun s0 ++ epTail] f = (none, none, none) ∨
    ∃ s e t, parseShows [litRun s0 ++ epTail] f = (some s, some e, some t) ∧
      s.length = 2 ∧ s.data.all isDigitP = true ∧ pyTruthy (some s) = true ∧
      e.length = 2 ∧ e.data.all isDigitP = true ∧ pyTruthy (some e) = true := by
  cases hs : searchStr true (litRun s0 ++ epTail) f with
  | none => left; simp [parseShows, hs]
  | some caps =>
    obtain ⟨d1, d2, t, rfl, h1len, h1all, h2len, h2all, htne, htall⟩ :=
      capsShape_profile hs
    right
    refine ⟨String.mk d1, String.mk d2, String.mk (pyStrip t), ?_, ?_, ?_, ?_, ?_, ?_, ?_⟩
    · simp [parseShows, hs, capStr, titleOf, findCap, numGroups_profile]
    · simpa [String.length] using h1len
    · simpa using h1all
    · cases d1 with
      | nil => simp at h1len
      | cons a l => simp [pyTruthy]
    · simpa [String.length] using h2len
    · simpa using h2all
    · cases d2 with
      | nil => simp at h2len
      | cons a l => simp [pyTruthy]

/-! ## The claims -/

/-- C1: `ShowOrganizer.parse_episode_info` tries the profile's patterns
in their declared order, each via case-insensitive substring search
(`re.search` with `re.IGNORECASE`, embedded as `searchStr true`), and
returns the season, episode and title extracted by the first pattern
that matches; the result is determined by that pattern alone, so later
patterns are never consulted. -/
theorem claim_first_pattern_wins (pats : List (List Tok)) (f : String) (i : Nat)
    (hi : i < pats.length) (caps : Caps)
    (hfirst : ∀ (j : Nat) (hj : j < pats.length), j < i →
      searchStr true (pats.get ⟨j, hj⟩) f = none)
    (hmatch : searchStr true (pats.get ⟨i, hi⟩) f = some caps) :
    parseShows pats f =
      (capStr caps 1, capStr caps 2, titleOf (pats.get ⟨i, hi⟩) caps) :=
  parseShows_first_match pats f i hi caps hfirst hmatch

theorem claim_first_pattern_wins_witness :
    parseShows [bsgPattern, fringePattern] "x FRINGE S04E01 The Arrival (720p) x" =
      (some "04", some "01", some "The Arrival") := by
  have h := claim_first_pattern_wins [bsgPattern, fringePattern]
    "x FRINGE S04E01 The Arrival (720p) x" 1 (by simp)
    [(1, ['0', '4']), (2, ['0', '1']),
     (3, ['T', 'h', 'e', ' ', 'A', 'r', 'r', 'i', 'v', 'a', 'l'])]
    (by intro j hj hj1
        have hj0 : j = 0 := by omega
        subst hj0
        rfl)
    rfl
  exact h.trans (by rfl)

/-- C6: for a matching pattern whose groups are numbered `1..k` in order
of appearance (as Python numbers them): when the pattern defines at
least three capture groups, `parse_episode_info` returns as title the
text captured by the pattern's group 3, trimmed of leading and trailing
whitespace — in this embedding's pattern fragment (which covers every
pattern of the registry) a defined group always participates in a
match; when the pattern defines fewer than three groups, the title is
`None`. -/
theorem claim_third_group_title (pat : List Tok) (f : String) (caps : Caps)
    (hw : groupIdxs pat = List.range' 1 (numGroups pat))
    (hm : searchStr true pat f = some caps) :
    (3 ≤ numGroups pat →
      ∃ tk a, Tok.grp 3 a ∈ pat ∧ AtomTakes true a tk ∧
        (parseShows [pat] f).2.2 = some (String.mk (pyStrip tk))) ∧
    (numGroups pat < 3 → (parseShows [pat] f).2.2 = none) := by
  have hcm := searchStr_sound hm
  obtain ⟨hmap, hmem⟩ := capsMatch_fst_map hcm
  have hlen : caps.length = numGroups pat := by
    have := congrArg List.length hmap
    simpa [numGroups] using this
  constructor
  · intro h3
    have hmap' : caps.map Prod.fst = List.range' 1 caps.length := by
      rw [hmap, hw, hlen]
    obtain ⟨tk, hfind, hmemc⟩ :=
      findCap_of_range caps 1 3 hmap' (by omega) (by omega)
    obtain ⟨a, hga, hat⟩ := hmem (3, tk) hmemc
    refine ⟨tk, a, hga, hat, ?_⟩
    simp [parseShows, hm, titleOf, h3, hfind]
  · intro h3
    simp [parseShows, hm, titleOf, Nat.not_le.mpr h3]

theorem claim_third_group_title_witness :
    ∃ tk a, Tok.grp 3 a ∈ fringePattern ∧ AtomTakes true a tk ∧
      (parseShows [fringePattern] "Fringe S04E01 Episode Title (1080p).mp4").2.2 =
        some (String.mk (pyStrip tk)) :=
  (claim_third_group_title fringePattern "Fringe S04E01 Episode Title (1080p).mp4"
    [(1, ['0', '4']), (2, ['0', '1']),
     (3, ['E', 'p', 'i', 's', 'o', 'd', 'e', ' ', 'T', 'i', 't', 'l', 'e'])]
    (by decide) rfl).1 (by decide)

/-- C7: under every registered show profile, the matcher either returns
the all-`None` triple (so `organize` classifies the file unparseable and
skips it) or returns both a season and an episode that are each exactly
two digit characters (and truthy, so the skip test does not fire); a
result with only one of the two fields is impossible. -/
theorem claim_two_digit_fields (kv : String × ShowConfig) (hk : kv ∈ SHOWS)
    (f : String) :
    parseShows kv.2.patterns f = (none, none, none) ∨
    ∃ s e t, parseShows kv.2.patterns f = (some s, some e, some t) ∧
      s.length = 2 ∧ s.data.all isDigitP = true ∧ pyTruthy (some s) = true ∧
      e.length = 2 ∧ e.data.all isDigitP = true ∧ pyTruthy (some e) = true := by
  simp only [SHOWS, List.mem_cons, List.not_mem_nil, or_false] at hk
  rcases hk with rfl | rfl
  · exact parse_profile_dichotomy "Fringe" f
  · exact parse_profile_dichotomy "BSG" f

theorem claim_two_digit_fields_witness :
    parseShows fringeConfig.patterns "Fringe S04E01 Episode Title (1080p).mp4" =
      (none, none, none) ∨
    ∃ s e t, parseShows fringeConfig.patterns
        "Fringe S04E01 Episode Title (1080p).mp4" = (some s, some e, some t) ∧
      s.length = 2 ∧ s.data.all isDigitP = true ∧ pyTruthy (some s) = true ∧
      e.length = 2 ∧ e.data.all isDigitP = true ∧ pyTruthy (some e) = true :=
  claim_two_digit_fields ("fringe", fringeConfig) (by simp [SHOWS])
    "Fringe S04E01 Episode Title (1080p).mp4"

/-- C8: for a filename matching none of the profile's patterns,
`parse_episode_info` returns the all-`None` triple.  The embedded
function is total, matching the script, whose loop falls through to
`return None, None, None` without raising: a no-match is a normal
outcome, not an error. -/
theorem claim_no_match_all_none (pats : List (List Tok)) (f : String)
    (h : ∀ p ∈ pats, searchStr true p f = none) :
    parseShows pats f = (none, none, none) :=
  parseShows_no_match pats f h

theorem claim_no_match_all_none_witness :
    parseShows fringeConfig.patterns "random_video.mp4" = (none, none, none) :=
  claim_no_match_all_none fringeConfig.patterns "random_video.mp4"
    (by intro p hp
        have hp' : p = fringePattern := by simpa [fringeConfig] using hp
        subst hp'
        rfl)

theorem strAppend_assoc (a b c : String) : a ++ b ++ c = a ++ (b ++ c) := by
  rcases a with ⟨la⟩; rcases b with ⟨lb⟩; rcases c with ⟨lc⟩
  show String.mk (la ++ lb ++ lc) = String.mk (la ++ (lb ++ lc))
  rw [List.append_assoc]

/-- C2: the destination path computed for a parsed file, relative to the
show's output directory, is exactly
`Season {season}/{show_name} - S{season}E{episode}{ - title if present}{extension}`,
and the end-to-end example: the input file
`Fringe S04E01 Episode Title (1080p).mp4` under the `fringe` profile
yields the outcome `Season 04/Fringe - S04E01 - Episode Title.mp4`,
which under the show's output directory is
`Fringe/Season 04/Fringe - S04E01 - Episode Title.mp4`. -/
theorem claim_layout_format :
    (∀ (cfg : ShowConfig) (season episode extension : String) (title : Option String),
      "Season " ++ season ++ "/" ++
          create_jellyfin_filename cfg.name season episode title extension =
        "Season " ++ season ++ "/" ++ cfg.name ++ " - S" ++ season ++ "E" ++ episode ++
          (if pyTruthy title then " - " ++ title.getD "" else "") ++ extension) ∧
    (organize fringeConfig true [⟨"Fringe S04E01 Episode Title (1080p).mp4", true⟩]
        true (fun _ => false) (fun _ => false)).toOption.map (fun p => p.2.outcomes) =
      some [("Fringe S04E01 Episode Title (1080p).mp4",
        Outcome.copied "Season 04/Fringe - S04E01 - Episode Title.mp4")] ∧
    fringeConfig.output_name ++ "/" ++ "Season 04/Fringe - S04E01 - Episode Title.mp4" =
      "Fringe/Season 04/Fringe - S04E01 - Episode Title.mp4" := by
  refine ⟨?_, rfl, rfl⟩
  intro cfg season episode extension title
  by_cases ht : pyTruthy title = true
  · simp [create_jellyfin_filename, ht, strAppend_assoc]
  · simp only [Bool.not_eq_true] at ht
    simp [create_jellyfin_filename, ht, strAppend_assoc]

/-- C5 (amended): in `organize_shows.py` an entry is selected iff it is
a regular file, its name does not end in `.part`, and its lowercased
suffix is one of `{.m4v, .mp4, .mkv, .avi, .ts}`; in
`organize_fringe.py` (also cited by the claim) the suffix is compared
without lowercasing against the smaller set `{.m4v, .mp4, .mkv, .avi}`. -/
theorem claim_eligible_files (e : FileEntry) :
    (showsKeep e = true ↔ e.isFile = true ∧ pyEndsWith e.name ".part" = false ∧
      videoExtsShows.contains (pyLower (pySuffix e.name)) = true) ∧
    (fringeKeep e = true ↔ e.isFile = true ∧ pyEndsWith e.name ".part" = false ∧
      videoExtsFringe.contains (pySuffix e.name) = true) := by
  have main : ∀ (b1 b2 b3 : Bool),
      ((if b1 then (if b2 then false else b3) else false) = true ↔
        b1 = true ∧ b2 = false ∧ b3 = true) := by decide
  exact ⟨main e.isFile (pyEndsWith e.name ".part")
      (videoExtsShows.contains (pyLower (pySuffix e.name))),
    main e.isFile (pyEndsWith e.name ".part")
      (videoExtsFringe.contains (pySuffix e.name))⟩

/-- C5 counterexample: the directory entry `video.ts` is a regular file,
not a partial download, and its lowercased extension is in
`{.m4v, .mp4, .mkv, .avi, .ts}`, yet the scan of `organize_fringe.py`
(one of the two scans the claim describes) does not select it. -/
theorem claim_eligible_files_counterexample :
    (FileEntry.mk "video.ts" true).isFile = true ∧
    pyEndsWith "video.ts" ".part" = false ∧
    videoExtsShows.contains (pyLower (pySuffix "video.ts")) = true ∧
    fringeKeep ⟨"video.ts", true⟩ = false := by
  exact ⟨rfl, rfl, rfl, rfl⟩

/-- C4 (amended): `main` of `organize_shows.py` returns 1 exactly when
the lowercased show key is missing from the registry (the constructor's
`ValueError` is caught), independently of the directory contents, so no
file is processed; when the key is known and `organize` finishes without
an uncaught exception, `main` returns 0 — even when files were skipped,
and also when the source directory does not exist, because the `False`
that `organize` returns for that configuration error is ignored. -/
theorem claim_exit_status (showArg : String) (entries : List FileEntry)
    (dr : Bool) (mkF cpF : String → Bool) :
    (SHOWS.lookup (pyLower showArg) = none →
      ∀ se, mainExit showArg se entries dr mkF cpF = 1) ∧
    (∀ se cfg r, SHOWS.lookup (pyLower showArg) = some cfg →
      organize cfg se entries dr mkF cpF = .ok r →
      mainExit showArg se entries dr mkF cpF = 0) := by
  constructor
  · intro h se
    simp [mainExit, h]
  · intro se cfg r h1 h2
    simp [mainExit, h1, h2]

theorem claim_exit_status_witness :
    mainExit "nope" true [] false (fun _ => false) (fun _ => false) = 1 ∧
    mainExit "fringe" true [FileEntry.mk "junk.mp4" true] false
      (fun _ => false) (fun _ => false) = 0 := by
  constructor
  · exact (claim_exit_status "nope" [] false (fun _ => false) (fun _ => false)).1
      rfl true
  · exact (claim_exit_status "fringe" [FileEntry.mk "junk.mp4" true] false
      (fun _ => false) (fun _ => false)).2 true fringeConfig
      (true, { copied := 0, skipped := 1,
               outcomes := [("junk.mp4", Outcome.skippedParse)],
               dirsMade := [], copies := [] }) rfl rfl

/-- C4 counterexample: with the registered key `fringe` and a
nonexistent source directory, the program exits with status 0, not the
non-zero status the claim requires for this configuration error —
`main` ignores the `False` returned by `organize`. -/
theorem claim_exit_status_counterexample :
    mainExit "fringe" false [] false (fun _ => false) (fun _ => false) = 0 := rfl

/-- C3 (amended): provided no filesystem write fails, a dry run — which
never consults the failure oracles — and a real run return the same
success flag, the same copied and skipped counts and the same per-file
outcome list (hence the same matched/skipped classification and the same
computed destination paths); the dry run creates no directory and copies
nothing.  When a copy fails, the counts diverge (see the
counterexample). -/
theorem claim_dry_run_parity (cfg : ShowConfig) (se : Bool)
    (entries : List FileEntry) (mkF cpF mkF2 cpF2 : String → Bool)
    (hm : ∀ d, mkF d = false) (hc : ∀ g, cpF g = false) :
    ∃ b stD stR,
      organize cfg se entries true mkF2 cpF2 = .ok (b, stD) ∧
      organize cfg se entries false mkF cpF = .ok (b, stR) ∧
      stD.copied = stR.copied ∧ stD.skipped = stR.skipped ∧
      stD.outcomes = stR.outcomes ∧ stD.dirsMade = [] ∧ stD.copies = [] := by
  cases se with
  | false =>
    exact ⟨false, initState, initState, rfl, rfl, rfl, rfl, rfl, rfl, rfl⟩
  | true =>
    by_cases hf : ((entries.filter showsKeep).map FileEntry.name).isEmpty
    · refine ⟨false, initState, initState, ?_, ?_, rfl, rfl, rfl, rfl, rfl⟩ <;>
        simp [organize, hf]
    · obtain ⟨stD', stR', hD, hR, k1, k2, k3, k4, k5⟩ :=
        processFiles_parity cfg mkF cpF mkF2 cpF2 hm hc
          (sortNames ((entries.filter showsKeep).map FileEntry.name))
          initState initState rfl rfl rfl
      refine ⟨true, stD', stR', ?_, ?_, k1, k2, k3, k4.trans rfl, k5.trans rfl⟩
      · simp [organize, hf, hD, Except.map]
      · simp [organize, hf, hR, Except.map]

theorem claim_dry_run_parity_witness :
    ∃ b stD stR,
      organize fringeConfig true [⟨"junk.mp4", true⟩,
          ⟨"Fringe S04E01 Episode Title (1080p).mp4", true⟩] true
          (fun _ => true) (fun _ => true) = .ok (b, stD) ∧
      organize fringeConfig true [⟨"junk.mp4", true⟩,
          ⟨"Fringe S04E01 Episode Title (1080p).mp4", true⟩] false
          (fun _ => false) (fun _ => false) = .ok (b, stR) ∧
      stD.copied = stR.copied ∧ stD.skipped = stR.skipped ∧
      stD.outcomes = stR.outcomes ∧ stD.dirsMade = [] ∧ stD.copies = [] :=
  claim_dry_run_parity fringeConfig true [⟨"junk.mp4", true⟩,
      ⟨"Fringe S04E01 Episode Title (1080p).mp4", true⟩]
    (fun _ => false) (fun _ => false) (fun _ => true) (fun _ => true)
    (fun _ => rfl) (fun _ => rfl)

/-- C3 counterexample: on the single parseable input file, with a copy
operation that fails, the dry run counts 1 would-copy and 0 skipped
while the real run counts 0 copied and 1 skipped — the copied/skipped
counts are not identical, refuting the claim's unconditional parity. -/
theorem claim_dry_run_parity_counterexample :
    (organize fringeConfig true [⟨"Fringe S04E01 Episode Title (1080p).mp4", true⟩]
        true (fun _ => false) (fun _ => true)).toOption.map
        (fun p => (p.2.copied, p.2.skipped)) = some (1, 0) ∧
    (organize fringeConfig true [⟨"Fringe S04E01 Episode Title (1080p).mp4", true⟩]
        false (fun _ => false) (fun _ => true)).toOption.map
        (fun p => (p.2.copied, p.2.skipped)) = some (0, 1) := ⟨rfl, rfl⟩

/-- C9 (amended): when `shutil.copy2` fails for a file (the only
write step inside the `try` block; the preceding `mkdir` succeeded), the
file is recorded as skipped with a copy-failure outcome and the loop
continues with the remaining files from that state: the failure does not
abort the batch and the file is not attempted again.  A failure of the
directory-creation step, which sits outside the `try`, instead aborts
the whole run uncaught (see the counterexample). -/
theorem claim_copy_failure_skips (cfg : ShowConfig) (mkF cpF : String → Bool)
    (f : String) (fs : List String) (st : LoopState)
    (hok : (!pyTruthy (parseShows cfg.patterns f).1 ||
      !pyTruthy (parseShows cfg.patterns f).2.1) = false)
    (hmk : mkF ("Season " ++ (parseShows cfg.patterns f).1.getD "") = false)
    (hcp : cpF f = true) :
    processFiles cfg false mkF cpF (f :: fs) st =
      processFiles cfg false mkF cpF fs { st with
        skipped := st.skipped + 1
        outcomes := st.outcomes ++ [(f, Outcome.copyFailed (destFor cfg f))]
        dirsMade := st.dirsMade ++
          ["Season " ++ (parseShows cfg.patterns f).1.getD ""] } := by
  have hpf : processFile cfg false mkF cpF st f = .ok { st with
      skipped := st.skipped + 1
      outcomes := st.outcomes ++ [(f, Outcome.copyFailed (destFor cfg f))]
      dirsMade := st.dirsMade ++
        ["Season " ++ (parseShows cfg.patterns f).1.getD ""] } := by
    simp [processFile, destFor, hok, hmk, hcp]
  simp [processFiles, hpf]

theorem claim_copy_failure_skips_witness :
    processFiles fringeConfig false (fun _ => false) (fun _ => true)
        ["Fringe S04E01 Episode Title (1080p).mp4", "junk.mp4"] initState =
      processFiles fringeConfig false (fun _ => false) (fun _ => true) ["junk.mp4"]
        { initState with
          skipped := initState.skipped + 1
          outcomes := initState.outcomes ++
            [("Fringe S04E01 Episode Title (1080p).mp4",
              Outcome.copyFailed (destFor fringeConfig
                "Fringe S04E01 Episode Title (1080p).mp4"))]
          dirsMade := initState.dirsMade ++
            ["Season " ++ (parseShows fringeConfig.patterns
              "Fringe S04E01 Episode Title (1080p).mp4").1.getD ""] } :=
  claim_copy_failure_skips fringeConfig (fun _ => false) (fun _ => true)
    "Fringe S04E01 Episode Title (1080p).mp4" ["junk.mp4"] initState rfl rfl rfl

/-- C9 counterexample: `season_dir.mkdir` is outside the `try` block, so
when this step of writing the file fails, the exception propagates and
the run aborts instead of recording the file as skipped and continuing
to the next file. -/
theorem claim_copy_failure_skips_counterexample :
    organize fringeConfig true [⟨"Fringe S04E01 Episode Title (1080p).mp4", true⟩]
      false (fun d => d == "Season 04") (fun _ => false) = .error () := rfl

/-- C10: whenever `organize` completes a full pass (returning `True`,
which is when the summary is printed), each eligible file incremented
exactly one of the two counters exactly once, so the copied and skipped
counts sum to the number of eligible files found by the directory
scan. -/
theorem claim_counter_sum (cfg : ShowConfig) (se : Bool) (entries : List FileEntry)
    (dr : Bool) (mkF cpF : String → Bool) (st : LoopState)
    (h : organize cfg se entries dr mkF cpF = .ok (true, st)) :
    st.copied + st.skipped = (entries.filter showsKeep).length := by
  simp only [organize] at h
  split at h
  · exact absurd h (by simp)
  · split at h
    · exact absurd h (by simp)
    · cases hpf : processFiles cfg dr mkF cpF
          (sortNames ((entries.filter showsKeep).map FileEntry.name)) initState with
      | error e =>
        rw [hpf] at h
        exact absurd h (by simp [Except.map])
      | ok st1 =>
        rw [hpf] at h
        simp only [Except.map, Except.ok.injEq, Prod.mk.injEq, true_and] at h
        subst h
        have hc := processFiles_count
          (sortNames ((entries.filter showsKeep).map FileEntry.name)) initState st1 hpf
        rw [sortNames_length, List.length_map] at hc
        simpa [initState] using hc

theorem claim_counter_sum_witness :
    (1 : Nat) + 1 = (([FileEntry.mk "junk.mp4" true,
        FileEntry.mk "Fringe S04E01 Episode Title (1080p).mp4" true] :
        List FileEntry).filter showsKeep).length :=
  claim_counter_sum fringeConfig true
    [FileEntry.mk "junk.mp4" true,
     FileEntry.mk "Fringe S04E01 Episode Title (1080p).mp4" true]
    true (fun _ => false) (fun _ => false)
    { copied := 1, skipped := 1,
      outcomes := [("Fringe S04E01 Episode Title (1080p).mp4",
        Outcome.copied "Season 04/Fringe - S04E01 - Episode Title.mp4"),
        ("junk.mp4", Outcome.skippedParse)],
      dirsMade := [], copies := [] } rfl

end Organize
